import Mathlib

/-!
Shallow embedding of the FAST_API_FINANCE-TRACKER repository
(src/routes.py, src/ai_service.py, src/config.py, src/models.py).

Modelling conventions:
* Python float amounts are modelled as exact rationals (the spec's data
  model calls them `decimal`); the arithmetic in the source is plain
  `+=` / `-=` on these amounts.
* The three module-level dictionaries of config.py (`user_accounts`,
  `transaction_history`, `user_details`) become the fields of `BankState`.
  Python dicts preserve insertion order and hold unique keys; they are
  modelled as association lists with first-match lookup and in-place
  update (`lookupAcct` / `updateAcct`).
* An HTTP handler that may `raise HTTPException` becomes a function
  returning the (possibly unchanged) state together with
  `Except Err result`; every `raise` in the source happens before any
  mutation, so the state returned alongside an error is the input state.
* `datetime.now().isoformat()` is an ambient value: each operation takes
  the timestamp it would observe as a parameter (one per request; the
  transfer handler calls it once and reuses it for both records, as in
  the source).
* The external AI call `analyze_transaction(note)` either raises or
  returns a dict that always carries a `category` key; it is modelled by
  the `AIOutcome` parameter (`fail` = exception, `ok c` = success with
  category `c`).  The deterministic normalisation layer of
  `ai_service.categorize_transaction` (everything after the model's text
  response) is embedded as the pure function `categorize_transaction`.
-/

/-- Transaction record `type` field values used in routes.py. -/
inductive TxType where
  | deposit
  | withdrawal
  | transfer_out
  | transfer_in
  deriving DecidableEq, Repr

/-- One entry of `transaction_history` (routes.py builds these dicts).
`counterparty` holds the `to_user` field of a `transfer_out` record and
the `from_user` field of a `transfer_in` record, and is `none` on
deposit/withdrawal records. -/
structure TxRecord where
  type : TxType
  username : String
  amount : Rat
  counterparty : Option String
  timestamp : Nat
  note : Option String
  category : Option String
  deriving DecidableEq, Repr

/-- Extended user details stored by `create_user` in `user_details`. -/
structure UserDetail where
  first_name : String
  last_name : String
  email : String
  phone : String
  pin : String
  deriving DecidableEq, Repr

/-- The whole in-memory "database" of config.py. -/
structure BankState where
  user_accounts : List (String × Rat)
  transaction_history : List TxRecord
  user_details : List (String × UserDetail)
  deriving DecidableEq, Repr

/-- Error taxonomy of the HTTPExceptions raised in routes.py. -/
inductive Err where
  | notFound
  | insufficientBalance
  | sameUser
  | invalidPinFormat
  | alreadyExists
  deriving DecidableEq, Repr

/-- HTTP status code attached to each raised HTTPException in routes.py. -/
def Err.status : Err → Nat
  | .notFound => 404
  | .insufficientBalance => 400
  | .sameUser => 400
  | .invalidPinFormat => 400
  | .alreadyExists => 400

/-- Outcome of the external `analyze_transaction` call: it either raises
an exception or returns a dict whose `category` key holds `c`. -/
inductive AIOutcome where
  | fail
  | ok (category : String)
  deriving DecidableEq, Repr

/-- First-match lookup in an association list (Python dict read). -/
def lookupAcct {β : Type} (k : String) : List (String × β) → Option β
  | [] => none
  | (k1, v) :: rest => if k1 = k then some v else lookupAcct k rest

/-- In-place update of the first matching key (Python dict write to an
existing key; leaves the list unchanged when the key is absent). -/
def updateAcct {β : Type} (k : String) (v : β) : List (String × β) → List (String × β)
  | [] => []
  | (k1, v1) :: rest =>
      if k1 = k then (k1, v) :: rest else (k1, v1) :: updateAcct k v rest

/-- Python `key in dict` membership test. -/
def containsAcct {β : Type} (k : String) (l : List (String × β)) : Bool :=
  (lookupAcct k l).isSome

/-- Python truthiness of the optional `note` field (`if request.note:`):
false for `None` and for the empty string. -/
def noteTruthy : Option String → Bool
  | none => false
  | some s => !s.isEmpty

/-- Category attached to the just-appended record(s): routes.py sets
`record["category"] = analysis["category"]` only when the note is truthy
and `analyze_transaction` returned normally; otherwise the key stays
absent. -/
def recordCategory (note : Option String) (ai : AIOutcome) : Option String :=
  if noteTruthy note then
    match ai with
    | .fail => none
    | .ok c => some c
  else none

/-- Python `str.isdigit()` on the pin: false on the empty string, true
iff every character is a digit. -/
def isdigitStr (s : String) : Bool :=
  !s.isEmpty && s.data.all Char.isDigit

/-- Handler of `POST /authenticate` (routes.py lines 35-57).  Note that
the stored pin in `user_details` is never consulted. -/
def authenticate (s : BankState) (username pin : String) : Except Err String :=
  if !(isdigitStr pin) then .error .invalidPinFormat
  else if containsAcct username s.user_accounts then
    .ok ("Welcome, " ++ username ++ "!")
  else .error .notFound

/-- Handler of `POST /deposit` (routes.py lines 59-104).  Returns the
new state plus the `new_balance` field of the response. -/
def deposit (s : BankState) (username : String) (amount : Rat)
    (note : Option String) (ts : Nat) (ai : AIOutcome) :
    BankState × Except Err Rat :=
  match lookupAcct username s.user_accounts with
  | none => (s, .error .notFound)
  | some bal =>
      let newBal := bal + amount
      let record : TxRecord :=
        { type := .deposit, username := username, amount := amount,
          counterparty := none, timestamp := ts, note := note,
          category := recordCategory note ai }
      ({ s with
          user_accounts := updateAcct username newBal s.user_accounts,
          transaction_history := s.transaction_history ++ [record] },
       .ok newBal)

/-- Handler of `POST /withdraw` (routes.py lines 106-155). -/
def withdraw (s : BankState) (username : String) (amount : Rat)
    (note : Option String) (ts : Nat) (ai : AIOutcome) :
    BankState × Except Err Rat :=
  match lookupAcct username s.user_accounts with
  | none => (s, .error .notFound)
  | some bal =>
      if bal < amount then (s, .error .insufficientBalance)
      else
        let newBal := bal - amount
        let record : TxRecord :=
          { type := .withdrawal, username := username, amount := -amount,
            counterparty := none, timestamp := ts, note := note,
            category := recordCategory note ai }
        ({ s with
            user_accounts := updateAcct username newBal s.user_accounts,
            transaction_history := s.transaction_history ++ [record] },
         .ok newBal)

/-- Handler of `POST /transfer` (routes.py lines 173-240).  Returns the
new state plus the `updated_balances` pair (sender, receiver). -/
def transfer (s : BankState) (from_user to_user : String) (amount : Rat)
    (note : Option String) (ts : Nat) (ai : AIOutcome) :
    BankState × Except Err (Rat × Rat) :=
  match lookupAcct from_user s.user_accounts, lookupAcct to_user s.user_accounts with
  | none, _ => (s, .error .notFound)
  | some _, none => (s, .error .notFound)
  | some bf, some _ =>
      if from_user = to_user then (s, .error .sameUser)
      else if bf < amount then (s, .error .insufficientBalance)
      else
        let acc1 := updateAcct from_user (bf - amount) s.user_accounts
        let acc2 :=
          match lookupAcct to_user acc1 with
          | some bt => updateAcct to_user (bt + amount) acc1
          | none => acc1
        let outRecord : TxRecord :=
          { type := .transfer_out, username := from_user, amount := -amount,
            counterparty := some to_user, timestamp := ts, note := note,
            category := recordCategory note ai }
        let inRecord : TxRecord :=
          { type := .transfer_in, username := to_user, amount := amount,
            counterparty := some from_user, timestamp := ts, note := note,
            category := recordCategory note ai }
        ({ s with
            user_accounts := acc2,
            transaction_history :=
              s.transaction_history ++ [outRecord, inRecord] },
         .ok ((lookupAcct from_user acc2).getD 0, (lookupAcct to_user acc2).getD 0))

/-- Handler of `GET /balance/{username}` (routes.py lines 159-171). -/
def get_balance (s : BankState) (username : String) : Except Err Rat :=
  match lookupAcct username s.user_accounts with
  | none => .error .notFound
  | some bal => .ok bal

/-- Handler of `GET /transactions/{username}` (routes.py lines 244-256):
filter the whole history by username, keep the Python slice
`user_txs[-10:][::-1]`. -/
def get_transactions (s : BankState) (username : String) :
    Except Err (List TxRecord) :=
  if !(containsAcct username s.user_accounts) then .error .notFound
  else
    let user_txs := s.transaction_history.filter (fun tx => tx.username = username)
    .ok ((user_txs.drop (user_txs.length - 10)).reverse)

/-- Handler of `POST /create-user` (routes.py lines 315-339). -/
def create_user (s : BankState) (username first_name last_name email phone pin : String) :
    BankState × Except Err Unit :=
  if containsAcct username s.user_accounts then (s, .error .alreadyExists)
  else
    ({ s with
        user_accounts := s.user_accounts ++ [(username, 0)],
        user_details := s.user_details ++
          [(username,
            { first_name := first_name, last_name := last_name,
              email := email, phone := phone, pin := pin })] },
     .ok ())

/-- The code's filter inside `get_spending_summary`
(`if not category or amount >= 0: continue`): a record counts iff its
category is present, non-empty, and its amount is strictly negative. -/
def codeQual (tx : TxRecord) : Bool :=
  (match tx.category with
   | none => false
   | some c => !c.isEmpty) && decide (tx.amount < 0)

/-- Accumulate one spend into the `category_totals` dict
(`category_totals[category] = category_totals.get(category, 0.0) + spend`). -/
def addSpend (totals : List (String × Rat)) (c : String) (spend : Rat) :
    List (String × Rat) :=
  match lookupAcct c totals with
  | some t => updateAcct c (t + spend) totals
  | none => totals ++ [(c, spend)]

/-- The `category_totals` loop of `get_spending_summary`
(routes.py lines 271-279), folded over the user's records. -/
def categoryTotals (acc : List (String × Rat)) : List TxRecord → List (String × Rat)
  | [] => acc
  | tx :: rest =>
      let acc1 :=
        match tx.category with
        | none => acc
        | some c =>
            if c.isEmpty || decide (0 ≤ tx.amount) then acc
            else addSpend acc c |tx.amount|
      categoryTotals acc1 rest

/-- Python `max(items, key=lambda kv: kv[1])` over a non-empty dict in
insertion order: keep the current best, replace only on a strictly
greater value (so the first maximal entry wins). -/
def maxByTotal (best : String × Rat) : List (String × Rat) → String × Rat
  | [] => best
  | p :: rest => maxByTotal (if best.2 < p.2 then p else best) rest

/-- Financial part of the `GET /spending-summary/{username}` response
(routes.py lines 259-303); the tip text comes from the external Advisor
and is out of scope. -/
structure SummaryResult where
  has_data : Bool
  category : Option String
  total : Rat
  deriving DecidableEq, Repr

/-- Handler of `GET /spending-summary/{username}` (routes.py lines 259-303). -/
def get_spending_summary (s : BankState) (username : String) :
    Except Err SummaryResult :=
  if !(containsAcct username s.user_accounts) then .error .notFound
  else
    let user_txs := s.transaction_history.filter (fun tx => tx.username = username)
    match categoryTotals [] user_txs with
    | [] => .ok { has_data := false, category := none, total := 0 }
    | p :: rest =>
        let top := maxByTotal p rest
        .ok { has_data := true, category := some top.1, total := top.2 }

/-- Fixed category set `_ALLOWED_CATEGORIES` of ai_service.py line 38. -/
def ALLOWED_CATEGORIES : List String :=
  [ "Food", "Shopping", "Transport", "Bills", "Education", "Entertainment",
    "Health", "Others" ]

/-- Python `str.lower()` as used on the model response and the category
names (ASCII case folding, character by character). -/
def lowerStr (s : String) : String := ⟨s.data.map Char.toLower⟩

/-- Python `str.strip()`: drop leading and trailing whitespace. -/
def trimStr (s : String) : String :=
  ⟨((s.data.dropWhile Char.isWhitespace).reverse.dropWhile Char.isWhitespace).reverse⟩

/-- Deterministic normalisation layer of
`ai_service.categorize_transaction` (lines 84-93): strip the model's
text response, return the first allowed category matching it up to
letter case, else fall back to the catch-all label. -/
def categorize_transaction (raw : String) : String :=
  let t := trimStr raw
  match ALLOWED_CATEGORIES.find? (fun cat => lowerStr t == lowerStr cat) with
  | some cat => cat
  | none => "Others"

/-- One API request that can mutate the ledger (the request body fields
plus the ambient timestamp and AI outcome the handler would observe). -/
inductive Op where
  | createUser (username first_name last_name email phone pin : String)
  | deposit (username : String) (amount : Rat) (note : Option String)
      (ts : Nat) (ai : AIOutcome)
  | withdraw (username : String) (amount : Rat) (note : Option String)
      (ts : Nat) (ai : AIOutcome)
  | transfer (from_user to_user : String) (amount : Rat) (note : Option String)
      (ts : Nat) (ai : AIOutcome)
  deriving Repr

/-- State transition of one request (an HTTPException leaves the state
as the handler found it, since every raise precedes every mutation). -/
def applyOp (s : BankState) : Op → BankState
  | .createUser u f l e p pin => (create_user s u f l e p pin).1
  | .deposit u amt note ts ai => (deposit s u amt note ts ai).1
  | .withdraw u amt note ts ai => (withdraw s u amt note ts ai).1
  | .transfer fu tu amt note ts ai => (transfer s fu tu amt note ts ai).1

/-- Run a sequence of requests. -/
def applyOps (s : BankState) (ops : List Op) : BankState :=
  ops.foldl applyOp s

/-- The empty store the process starts with (config.py lines 12-19). -/
def initState : BankState :=
  { user_accounts := [], transaction_history := [], user_details := [] }

/-- Sum of the signed `amount` fields of the records belonging to one
username. -/
def signedSum (u : String) (hist : List TxRecord) : Rat :=
  ((hist.filter (fun r => r.username = u)).map TxRecord.amount).sum

/-- Sum of all balances in the account store. -/
def sumValues (l : List (String × Rat)) : Rat :=
  (l.map Prod.snd).sum

/-! ### Association-list lemmas -/

theorem lookupAcct_updateAcct_self {β : Type} {k : String} {v w : β}
    {l : List (String × β)} (h : lookupAcct k l = some w) :
    lookupAcct k (updateAcct k v l) = some v := by
  induction l with
  | nil => simp [lookupAcct] at h
  | cons p rest ih =>
      obtain ⟨k1, v1⟩ := p
      by_cases hk : k1 = k
      · simp [lookupAcct, updateAcct, hk]
      · simp only [lookupAcct, updateAcct, hk, if_false, if_neg hk] at h ⊢
        exact ih h

theorem lookupAcct_updateAcct_ne {β : Type} {k k1 : String} (v : β)
    {l : List (String × β)} (h : k1 ≠ k) :
    lookupAcct k (updateAcct k1 v l) = lookupAcct k l := by
  induction l with
  | nil => rfl
  | cons p rest ih =>
      obtain ⟨k2, v2⟩ := p
      by_cases hk : k2 = k1
      · subst hk
        simp [lookupAcct, updateAcct, h]
      · by_cases hk2 : k2 = k
        · subst hk2
          simp [lookupAcct, updateAcct, hk]
        · simp [lookupAcct, updateAcct, hk, hk2, ih]

theorem keys_updateAcct {β : Type} (k : String) (v : β) (l : List (String × β)) :
    (updateAcct k v l).map Prod.fst = l.map Prod.fst := by
  induction l with
  | nil => rfl
  | cons p rest ih =>
      obtain ⟨k1, v1⟩ := p
      by_cases hk : k1 = k <;> simp [updateAcct, hk, ih]

theorem sumValues_cons (p : String × Rat) (l : List (String × Rat)) :
    sumValues (p :: l) = p.2 + sumValues l := by
  simp [sumValues]

theorem sumValues_updateAcct {k : String} {v w : Rat} {l : List (String × Rat)}
    (h : lookupAcct k l = some w) :
    sumValues (updateAcct k v l) = sumValues l - w + v := by
  induction l with
  | nil => simp [lookupAcct] at h
  | cons p rest ih =>
      obtain ⟨k1, v1⟩ := p
      by_cases hk : k1 = k
      · subst hk
        simp [lookupAcct] at h
        subst h
        simp [updateAcct, sumValues_cons]
        ring
      · simp only [lookupAcct, if_neg hk] at h
        simp only [updateAcct, if_neg hk, sumValues_cons]
        rw [ih h]
        ring

theorem lookupAcct_mem {β : Type} {k : String} {v : β} {l : List (String × β)}
    (h : lookupAcct k l = some v) : (k, v) ∈ l := by
  induction l with
  | nil => simp [lookupAcct] at h
  | cons p rest ih =>
      obtain ⟨k1, v1⟩ := p
      by_cases hk : k1 = k
      · simp only [lookupAcct, if_pos hk, Option.some.injEq] at h
        subst hk; subst h
        exact List.mem_cons_self _ _
      · simp only [lookupAcct, if_neg hk] at h
        exact List.mem_cons_of_mem _ (ih h)

theorem containsAcct_eq_keys_mem {β : Type} (k : String) (l : List (String × β)) :
    containsAcct k l = true ↔ k ∈ l.map Prod.fst := by
  induction l with
  | nil => simp [containsAcct, lookupAcct]
  | cons p rest ih =>
      obtain ⟨k1, v1⟩ := p
      by_cases hk : k1 = k
      · simp [containsAcct, lookupAcct, hk]
      · simp only [containsAcct, lookupAcct, if_neg hk, List.map_cons, List.mem_cons]
        rw [← ih]
        simp [containsAcct, Ne.symm hk]

/-! ### C2: withdraw fails with InsufficientFunds iff amount exceeds balance -/

/-- C2: for a withdraw request on an existing account with positive
amount, the handler raises the 400 InsufficientFunds error exactly when
the requested amount exceeds the current balance, and in that case the
whole state (balance and transaction log) is unchanged. -/
theorem withdraw_insufficient_iff (s : BankState) (u : String) (amount b : Rat)
    (note : Option String) (ts : Nat) (ai : AIOutcome)
    (hu : lookupAcct u s.user_accounts = some b) (hpos : 0 < amount) :
    ((withdraw s u amount note ts ai).2 = .error .insufficientBalance ↔ amount > b)
    ∧ (amount > b → (withdraw s u amount note ts ai).1 = s)
    ∧ Err.status .insufficientBalance = 400 := by
  unfold withdraw
  rw [hu]
  by_cases hlt : b < amount
  · simp [hlt, gt_iff_lt, Err.status]
  · simp [hlt, gt_iff_lt, Err.status]

/-- Concrete store used to exercise the withdraw theorem. -/
def withdrawDemoState : BankState :=
  { user_accounts := [( "carol", 20)], transaction_history := [], user_details := [] }

theorem withdraw_insufficient_iff_witness :
    lookupAcct "carol" withdrawDemoState.user_accounts = some 20 ∧ (0 : Rat) < 50 ∧
    (((withdraw withdrawDemoState "carol" 50 none 0 .fail).2
        = .error .insufficientBalance ↔ (50 : Rat) > 20)
     ∧ ((50 : Rat) > 20 → (withdraw withdrawDemoState "carol" 50 none 0 .fail).1
          = withdrawDemoState)
     ∧ Err.status .insufficientBalance = 400) :=
  ⟨by decide, by decide,
   withdraw_insufficient_iff withdrawDemoState "carol" 50 20 none 0 .fail
     (by decide) (by decide)⟩

/-! ### Characterisations of the successful operation branches -/

theorem deposit_ok_eq (s : BankState) (u : String) (amount b : Rat)
    (note : Option String) (ts : Nat) (ai : AIOutcome)
    (h : lookupAcct u s.user_accounts = some b) :
    deposit s u amount note ts ai =
      ({ s with
          user_accounts := updateAcct u (b + amount) s.user_accounts,
          transaction_history := s.transaction_history ++
            [ { type := .deposit, username := u, amount := amount,
                counterparty := none, timestamp := ts, note := note,
                category := recordCategory note ai } ] }, .ok (b + amount)) := by
  unfold deposit
  rw [h]

theorem withdraw_ok_eq (s : BankState) (u : String) (amount b : Rat)
    (note : Option String) (ts : Nat) (ai : AIOutcome)
    (h : lookupAcct u s.user_accounts = some b) (hnlt : ¬ b < amount) :
    withdraw s u amount note ts ai =
      ({ s with
          user_accounts := updateAcct u (b - amount) s.user_accounts,
          transaction_history := s.transaction_history ++
            [ { type := .withdrawal, username := u, amount := -amount,
                counterparty := none, timestamp := ts, note := note,
                category := recordCategory note ai } ] }, .ok (b - amount)) := by
  unfold withdraw
  rw [h]
  simp only [if_neg hnlt]

theorem transfer_ok_eq (s : BankState) (fu tu : String) (amount bf bt : Rat)
    (note : Option String) (ts : Nat) (ai : AIOutcome)
    (hf : lookupAcct fu s.user_accounts = some bf)
    (ht : lookupAcct tu s.user_accounts = some bt)
    (hne : fu ≠ tu) (hnlt : ¬ bf < amount) :
    transfer s fu tu amount note ts ai =
      ({ s with
          user_accounts := updateAcct tu (bt + amount)
            (updateAcct fu (bf - amount) s.user_accounts),
          transaction_history := s.transaction_history ++
            [ { type := .transfer_out, username := fu, amount := -amount,
                counterparty := some tu, timestamp := ts, note := note,
                category := recordCategory note ai },
              { type := .transfer_in, username := tu, amount := amount,
                counterparty := some fu, timestamp := ts, note := note,
                category := recordCategory note ai } ] },
       .ok (bf - amount, bt + amount)) := by
  have h1 : lookupAcct tu (updateAcct fu (bf - amount) s.user_accounts) = some bt := by
    rw [lookupAcct_updateAcct_ne _ hne]; exact ht
  have h2 : lookupAcct fu (updateAcct tu (bt + amount)
      (updateAcct fu (bf - amount) s.user_accounts)) = some (bf - amount) := by
    rw [lookupAcct_updateAcct_ne _ (Ne.symm hne)]
    exact lookupAcct_updateAcct_self hf
  have h3 : lookupAcct tu (updateAcct tu (bt + amount)
      (updateAcct fu (bf - amount) s.user_accounts)) = some (bt + amount) :=
    lookupAcct_updateAcct_self h1
  unfold transfer
  rw [hf, ht]
  simp only [if_neg hne, if_neg hnlt, h1, h2, h3, Option.getD_some]

/-! ### C3: effect of a successful transfer -/

/-- C3: a successful transfer of `amount` from `fu` to `tu` (both exist,
`fu ≠ tu`, sender balance at least `amount`) decreases the sender's
balance by exactly `amount`, increases the receiver's by exactly
`amount`, reports the two updated balances, and appends exactly two
records: a `transfer_out` for `fu` with amount `-amount` and a
`transfer_in` for `tu` with amount `+amount`, both carrying the same
timestamp, the same note and the same category. -/
theorem transfer_success_effect (s : BankState) (fu tu : String) (amount bf bt : Rat)
    (note : Option String) (ts : Nat) (ai : AIOutcome)
    (hf : lookupAcct fu s.user_accounts = some bf)
    (ht : lookupAcct tu s.user_accounts = some bt)
    (hne : fu ≠ tu) (hle : amount ≤ bf) :
    (transfer s fu tu amount note ts ai).2 = .ok (bf - amount, bt + amount)
    ∧ lookupAcct fu (transfer s fu tu amount note ts ai).1.user_accounts
        = some (bf - amount)
    ∧ lookupAcct tu (transfer s fu tu amount note ts ai).1.user_accounts
        = some (bt + amount)
    ∧ (transfer s fu tu amount note ts ai).1.transaction_history
        = s.transaction_history ++
          [ { type := .transfer_out, username := fu, amount := -amount,
              counterparty := some tu, timestamp := ts, note := note,
              category := recordCategory note ai },
            { type := .transfer_in, username := tu, amount := amount,
              counterparty := some fu, timestamp := ts, note := note,
              category := recordCategory note ai } ] := by
  have hnlt : ¬ bf < amount := not_lt.mpr hle
  have h1 : lookupAcct tu (updateAcct fu (bf - amount) s.user_accounts) = some bt := by
    rw [lookupAcct_updateAcct_ne _ hne]; exact ht
  rw [transfer_ok_eq s fu tu amount bf bt note ts ai hf ht hne hnlt]
  refine ⟨rfl, ?_, ?_, rfl⟩
  · rw [lookupAcct_updateAcct_ne _ (Ne.symm hne)]
    exact lookupAcct_updateAcct_self hf
  · exact lookupAcct_updateAcct_self h1

/-- Concrete store used to exercise the transfer theorem. -/
def transferDemoState : BankState :=
  { user_accounts := [( "alice", 100), ( "bob", 5)],
    transaction_history := [], user_details := [] }

theorem transfer_success_effect_witness :
    lookupAcct "alice" transferDemoState.user_accounts = some 100 ∧
    lookupAcct "bob" transferDemoState.user_accounts = some 5 ∧
    ("alice" : String) ≠ "bob" ∧ (30 : Rat) ≤ 100 ∧
    ((transfer transferDemoState "alice" "bob" 30 (some "rent") 7 .fail).2
        = .ok (100 - 30, 5 + 30)
     ∧ lookupAcct "alice"
         (transfer transferDemoState "alice" "bob" 30 (some "rent") 7 .fail).1.user_accounts
         = some (100 - 30)
     ∧ lookupAcct "bob"
         (transfer transferDemoState "alice" "bob" 30 (some "rent") 7 .fail).1.user_accounts
         = some (5 + 30)
     ∧ (transfer transferDemoState "alice" "bob" 30 (some "rent") 7 .fail).1.transaction_history
         = transferDemoState.transaction_history ++
           [ { type := .transfer_out, username := "alice", amount := -30,
               counterparty := some "bob", timestamp := 7, note := some "rent",
               category := recordCategory (some "rent") .fail },
             { type := .transfer_in, username := "bob", amount := 30,
               counterparty := some "alice", timestamp := 7, note := some "rent",
               category := recordCategory (some "rent") .fail } ]) :=
  ⟨by decide, by decide, by decide, by decide,
   transfer_success_effect transferDemoState "alice" "bob" 30 100 5
     (some "rent") 7 .fail (by decide) (by decide) (by decide) (by decide)⟩

/-! ### C4: authentication never compares the supplied pin with the stored pin -/

/-- Concrete store: user alice exists and her stored pin is 1234. -/
def pinDemoState : BankState :=
  { user_accounts := [( "alice", 0)],
    transaction_history := [],
    user_details := [( "alice",
      { first_name := "Alice", last_name := "Smith",
        email := "alice@example.com", phone := "0300", pin := "1234" })] }

/-- C4 (code bug witness): the `/authenticate` handler of routes.py only
checks that the supplied pin is made of digits and that the username
exists; it never reads `user_details`.  Here the stored pin is 1234, the
supplied pin 9999 is well formed and different, yet the handler returns
the 200 welcome message. -/
theorem authenticate_accepts_mismatched_pin :
    (lookupAcct "alice" pinDemoState.user_details).map UserDetail.pin = some "1234"
    ∧ isdigitStr "9999" = true
    ∧ ("9999" : String) ≠ "1234"
    ∧ authenticate pinDemoState "alice" "9999" = .ok "Welcome, alice!" := by
  refine ⟨rfl, rfl, by decide, rfl⟩

/-! ### C5: a failing Categorizer never changes the financial outcome -/

/-- C5: with a truthy note and the external categorization step raising
an exception (`AIOutcome.fail`), each of the three money-moving handlers
still performs its balance mutation, still appends its record(s), still
reports success, and the appended record(s) carry no category. -/
theorem categorizer_failure_keeps_outcome (s : BankState) (u fu tu : String)
    (amount b bf bt : Rat) (note : Option String) (ts : Nat)
    (hnote : noteTruthy note = true) :
    (lookupAcct u s.user_accounts = some b →
      deposit s u amount note ts .fail =
        ({ s with
            user_accounts := updateAcct u (b + amount) s.user_accounts,
            transaction_history := s.transaction_history ++
              [ { type := .deposit, username := u, amount := amount,
                  counterparty := none, timestamp := ts, note := note,
                  category := none } ] }, .ok (b + amount)))
    ∧ (lookupAcct u s.user_accounts = some b → amount ≤ b →
      withdraw s u amount note ts .fail =
        ({ s with
            user_accounts := updateAcct u (b - amount) s.user_accounts,
            transaction_history := s.transaction_history ++
              [ { type := .withdrawal, username := u, amount := -amount,
                  counterparty := none, timestamp := ts, note := note,
                  category := none } ] }, .ok (b - amount)))
    ∧ (lookupAcct fu s.user_accounts = some bf →
       lookupAcct tu s.user_accounts = some bt → fu ≠ tu → amount ≤ bf →
      transfer s fu tu amount note ts .fail =
        ({ s with
            user_accounts := updateAcct tu (bt + amount)
              (updateAcct fu (bf - amount) s.user_accounts),
            transaction_history := s.transaction_history ++
              [ { type := .transfer_out, username := fu, amount := -amount,
                  counterparty := some tu, timestamp := ts, note := note,
                  category := none },
                { type := .transfer_in, username := tu, amount := amount,
                  counterparty := some fu, timestamp := ts, note := note,
                  category := none } ] },
         .ok (bf - amount, bt + amount))) := by
  have hcat : recordCategory note .fail = none := by
    unfold recordCategory
    split <;> rfl
  refine ⟨?_, ?_, ?_⟩
  · intro h
    rw [deposit_ok_eq s u amount b note ts .fail h, hcat]
  · intro h hle
    rw [withdraw_ok_eq s u amount b note ts .fail h (not_lt.mpr hle), hcat]
  · intro hf ht hne hle
    rw [transfer_ok_eq s fu tu amount bf bt note ts .fail hf ht hne (not_lt.mpr hle), hcat]

theorem categorizer_failure_keeps_outcome_witness :
    noteTruthy (some "pizza") = true ∧
    lookupAcct "alice" transferDemoState.user_accounts = some 100 ∧
    (deposit transferDemoState "alice" 30 (some "pizza") 3 .fail =
       ({ transferDemoState with
           user_accounts :=
             updateAcct "alice" (100 + 30) transferDemoState.user_accounts,
           transaction_history := transferDemoState.transaction_history ++
             [ { type := .deposit, username := "alice", amount := 30,
                 counterparty := none, timestamp := 3, note := some "pizza",
                 category := none } ] }, .ok (100 + 30))) :=
  ⟨by decide, by decide,
   (categorizer_failure_keeps_outcome transferDemoState "alice" "alice" "bob"
      30 100 100 5 (some "pizza") 3 (by decide)).1 (by decide)⟩

/-! ### C8: transaction history endpoint returns the newest ten -/

theorem reverse_drop_eq_take_reverse {α : Type} (l : List α) (n : Nat) :
    (l.drop (l.length - n)).reverse = l.reverse.take n := by
  by_cases h : n ≤ l.length
  · have hlen : (l.drop (l.length - n)).reverse.length = n := by
      simp only [List.length_reverse, List.length_drop]
      omega
    have hsplit : l.reverse
        = (l.drop (l.length - n)).reverse ++ (l.take (l.length - n)).reverse := by
      rw [← List.reverse_append, List.take_append_drop]
    rw [hsplit]
    exact (List.take_left' hlen).symm
  · have h1 : l.length - n = 0 := by omega
    rw [h1, List.drop_zero]
    rw [List.take_of_length_le]
    simp only [List.length_reverse]
    omega

/-- C8: for an existing user, `GET /transactions/{username}` returns the
first ten elements of the reversed per-user record sequence, i.e. at
most the ten most recently appended matching records, newest first, and
the returned list never exceeds length ten. -/
theorem get_transactions_recent_ten (s : BankState) (u : String)
    (h : containsAcct u s.user_accounts = true) :
    get_transactions s u =
      .ok (((s.transaction_history.filter (fun tx => tx.username = u)).reverse).take 10)
    ∧ ∀ l, get_transactions s u = .ok l → l.length ≤ 10 := by
  have heq : get_transactions s u =
      .ok (((s.transaction_history.filter (fun tx => tx.username = u)).reverse).take 10) := by
    unfold get_transactions
    rw [h]
    simp only [Bool.not_true, Bool.false_eq_true, if_false]
    rw [reverse_drop_eq_take_reverse]
  refine ⟨heq, ?_⟩
  intro l hl
  rw [heq] at hl
  cases hl
  calc (((s.transaction_history.filter (fun tx => tx.username = u)).reverse).take 10).length
      ≤ 10 := by
        rw [List.length_take]
        exact min_le_left _ _

theorem get_transactions_recent_ten_witness :
    containsAcct "alice" transferDemoState.user_accounts = true ∧
    (get_transactions transferDemoState "alice" =
       .ok (((transferDemoState.transaction_history.filter
                (fun tx => tx.username = "alice")).reverse).take 10)
     ∧ ∀ l, get_transactions transferDemoState "alice" = .ok l → l.length ≤ 10) :=
  ⟨by decide, get_transactions_recent_ten transferDemoState "alice" (by decide)⟩

/-! ### C9: categorize_transaction always lands in the fixed category set -/

theorem categorize_transaction_eq (raw : String) :
    categorize_transaction raw =
      match ALLOWED_CATEGORIES.find?
          (fun cat => lowerStr (trimStr raw) == lowerStr cat) with
      | some cat => cat
      | none => "Others" := rfl

/-- C9: whatever text the model returns, the normalisation layer of
`categorize_transaction` yields a member of the fixed category set; a
stripped response matching a known category name up to letter case is
mapped to that exact category, and any other response falls back to the
catch-all label Others. -/
theorem categorize_transaction_normalizes (raw : String) :
    categorize_transaction raw ∈ ALLOWED_CATEGORIES
    ∧ (∀ cat ∈ ALLOWED_CATEGORIES,
        lowerStr (trimStr raw) = lowerStr cat → categorize_transaction raw = cat)
    ∧ ((∀ cat ∈ ALLOWED_CATEGORIES, lowerStr (trimStr raw) ≠ lowerStr cat) →
        categorize_transaction raw = "Others") := by
  refine ⟨?_, ?_, ?_⟩
  · rw [categorize_transaction_eq]
    cases hf : ALLOWED_CATEGORIES.find?
        (fun cat => lowerStr (trimStr raw) == lowerStr cat) with
    | none => decide
    | some cat => exact List.mem_of_find?_eq_some hf
  · intro cat hmem hcase
    rw [categorize_transaction_eq]
    cases hf : ALLOWED_CATEGORIES.find?
        (fun cat => lowerStr (trimStr raw) == lowerStr cat) with
    | none =>
        exfalso
        apply List.find?_eq_none.mp hf cat hmem
        simp only [beq_iff_eq]
        exact hcase
    | some cat2 =>
        have h2 := List.find?_some hf
        simp only [beq_iff_eq] at h2
        have hmem2 : cat2 ∈ ALLOWED_CATEGORIES := List.mem_of_find?_eq_some hf
        have hlow : lowerStr cat2 = lowerStr cat := by rw [← h2, hcase]
        have hinj : ∀ a ∈ ALLOWED_CATEGORIES, ∀ b ∈ ALLOWED_CATEGORIES,
            lowerStr a = lowerStr b → a = b := by decide
        exact hinj cat2 hmem2 cat hmem hlow
  · intro hall
    rw [categorize_transaction_eq]
    have hf : ALLOWED_CATEGORIES.find?
        (fun cat => lowerStr (trimStr raw) == lowerStr cat) = none := by
      apply List.find?_eq_none.mpr
      intro c hc
      simp only [beq_iff_eq]
      exact hall c hc
    rw [hf]

theorem categorize_transaction_normalizes_witness :
    ("Food" : String) ∈ ALLOWED_CATEGORIES ∧
    lowerStr (trimStr " FOOD ") = lowerStr "Food" ∧
    categorize_transaction " FOOD " = "Food" :=
  ⟨by decide, by decide,
   (categorize_transaction_normalizes " FOOD ").2.1 "Food" (by decide) (by decide)⟩

/-! ### C1: balances equal the signed sum of the transaction log -/

theorem signedSum_append (u : String) (hist rs : List TxRecord) :
    signedSum u (hist ++ rs) = signedSum u hist + signedSum u rs := by
  simp [signedSum, List.filter_append]

theorem signedSum_single (u : String) (r : TxRecord) :
    signedSum u [r] = if r.username = u then r.amount else 0 := by
  by_cases h : r.username = u <;> simp [signedSum, h]

theorem signedSum_pair (u : String) (r1 r2 : TxRecord) :
    signedSum u [r1, r2] =
      (if r1.username = u then r1.amount else 0)
      + (if r2.username = u then r2.amount else 0) := by
  by_cases h1 : r1.username = u <;> by_cases h2 : r2.username = u <;>
    simp [signedSum, h1, h2]

theorem signedSum_eq_zero_of_no_records (u : String) (hist : List TxRecord)
    (h : ∀ r ∈ hist, ¬ r.username = u) : signedSum u hist = 0 := by
  have hnil : hist.filter (fun r => r.username = u) = [] := by
    rw [List.filter_eq_nil_iff]
    intro r hr
    simp only [decide_eq_true_eq]
    exact h r hr
  simp [signedSum, hnil]

theorem lookupAcct_append {β : Type} (k : String) (l1 l2 : List (String × β)) :
    lookupAcct k (l1 ++ l2) =
      match lookupAcct k l1 with
      | some v => some v
      | none => lookupAcct k l2 := by
  induction l1 with
  | nil => rfl
  | cons p rest ih =>
      obtain ⟨k1, v1⟩ := p
      by_cases hk : k1 = k <;> simp [lookupAcct, hk, ih]

theorem containsAcct_updateAcct {β : Type} (x k : String) (v : β)
    (l : List (String × β)) :
    containsAcct x (updateAcct k v l) = containsAcct x l := by
  induction l with
  | nil => rfl
  | cons p rest ih =>
      obtain ⟨k1, v1⟩ := p
      by_cases hk : k1 = k
      · subst hk
        by_cases hx : k1 = x
        · subst hx
          simp [containsAcct, lookupAcct, updateAcct]
        · simp [containsAcct, lookupAcct, updateAcct, hx]
      · by_cases hx : k1 = x
        · subst hx
          simp [containsAcct, lookupAcct, updateAcct, hk]
        · simp only [containsAcct, lookupAcct, updateAcct, if_neg hk, if_neg hx]
          exact ih

theorem containsAcct_append_left {β : Type} {x : String} {l1 : List (String × β)}
    (l2 : List (String × β)) (h : containsAcct x l1 = true) :
    containsAcct x (l1 ++ l2) = true := by
  unfold containsAcct at h ⊢
  rw [lookupAcct_append]
  cases hl : lookupAcct x l1 with
  | none => rw [hl] at h; simp at h
  | some v => simp

/-- The ledger invariant behind C1: every stored balance equals the
signed sum of that user's records, and every record's username names an
existing account. -/
def ledgerInv (s : BankState) : Prop :=
  (∀ u b, lookupAcct u s.user_accounts = some b →
    b = signedSum u s.transaction_history)
  ∧ (∀ r ∈ s.transaction_history, containsAcct r.username s.user_accounts = true)

theorem ledgerInv_init : ledgerInv initState := by
  constructor
  · intro u b h
    simp [lookupAcct, initState] at h
  · intro r hr
    simp [initState] at hr

theorem ledgerInv_applyOp (s : BankState) (op : Op) (h : ledgerInv s) :
    ledgerInv (applyOp s op) := by
  obtain ⟨hbal, hrec⟩ := h
  cases op with
  | createUser u f l e p pin =>
      show ledgerInv (create_user s u f l e p pin).1
      by_cases hc : containsAcct u s.user_accounts = true
      · have he : (create_user s u f l e p pin).1 = s := by
          simp [create_user, hc]
        rw [he]; exact ⟨hbal, hrec⟩
      · have he : (create_user s u f l e p pin).1 =
            { s with
                user_accounts := s.user_accounts ++ [(u, 0)],
                user_details := s.user_details ++
                  [(u, { first_name := f, last_name := l, email := e,
                         phone := p, pin := pin })] } := by
          simp [create_user, hc]
        rw [he]
        constructor
        · intro u1 b h1
          dsimp at h1 ⊢
          rw [lookupAcct_append] at h1
          cases hl : lookupAcct u1 s.user_accounts with
          | some v =>
              rw [hl] at h1
              injection h1 with h2
              subst h2
              exact hbal u1 v hl
          | none =>
              rw [hl] at h1
              by_cases huu : u = u1
              · subst huu
                simp only [lookupAcct, if_pos rfl] at h1
                injection h1 with h2
                subst h2
                symm
                apply signedSum_eq_zero_of_no_records
                intro r hr hru
                apply hc
                rw [← hru]
                exact hrec r hr
              · simp [lookupAcct, huu] at h1
        · intro r hr
          dsimp at hr ⊢
          exact containsAcct_append_left _ (hrec r hr)
  | deposit u amt note ts ai =>
      show ledgerInv (deposit s u amt note ts ai).1
      cases hl : lookupAcct u s.user_accounts with
      | none =>
          have he : (deposit s u amt note ts ai).1 = s := by
            unfold deposit; rw [hl]
          rw [he]; exact ⟨hbal, hrec⟩
      | some b =>
          rw [deposit_ok_eq s u amt b note ts ai hl]
          constructor
          · intro u1 b1 h1
            dsimp at h1 ⊢
            by_cases hu : u1 = u
            · subst hu
              rw [lookupAcct_updateAcct_self hl] at h1
              injection h1 with h2
              subst h2
              have hb := hbal u1 b hl
              rw [signedSum_append, signedSum_single]
              simp [hb]
            · rw [lookupAcct_updateAcct_ne _ (Ne.symm hu)] at h1
              have hb := hbal u1 b1 h1
              rw [signedSum_append, signedSum_single]
              simp [Ne.symm hu, hb]
          · intro r hr
            dsimp at hr ⊢
            rw [containsAcct_updateAcct]
            rcases List.mem_append.mp hr with hmem | hmem
            · exact hrec r hmem
            · rw [List.mem_singleton] at hmem
              subst hmem
              unfold containsAcct
              rw [hl]
              rfl
  | withdraw u amt note ts ai =>
      show ledgerInv (withdraw s u amt note ts ai).1
      cases hl : lookupAcct u s.user_accounts with
      | none =>
          have he : (withdraw s u amt note ts ai).1 = s := by
            unfold withdraw; rw [hl]
          rw [he]; exact ⟨hbal, hrec⟩
      | some b =>
          by_cases hlt : b < amt
          · have he : (withdraw s u amt note ts ai).1 = s := by
              unfold withdraw; rw [hl]; simp [hlt]
            rw [he]; exact ⟨hbal, hrec⟩
          · rw [withdraw_ok_eq s u amt b note ts ai hl hlt]
            constructor
            · intro u1 b1 h1
              dsimp at h1 ⊢
              by_cases hu : u1 = u
              · subst hu
                rw [lookupAcct_updateAcct_self hl] at h1
                injection h1 with h2
                subst h2
                have hb := hbal u1 b hl
                rw [signedSum_append, signedSum_single]
                simp [hb, sub_eq_add_neg]
              · rw [lookupAcct_updateAcct_ne _ (Ne.symm hu)] at h1
                have hb := hbal u1 b1 h1
                rw [signedSum_append, signedSum_single]
                simp [Ne.symm hu, hb]
            · intro r hr
              dsimp at hr ⊢
              rw [containsAcct_updateAcct]
              rcases List.mem_append.mp hr with hmem | hmem
              · exact hrec r hmem
              · rw [List.mem_singleton] at hmem
                subst hmem
                unfold containsAcct
                rw [hl]
                rfl
  | transfer fu tu amt note ts ai =>
      show ledgerInv (transfer s fu tu amt note ts ai).1
      cases hf : lookupAcct fu s.user_accounts with
      | none =>
          have he : (transfer s fu tu amt note ts ai).1 = s := by
            simp [transfer, hf]
          rw [he]; exact ⟨hbal, hrec⟩
      | some bf =>
          cases ht : lookupAcct tu s.user_accounts with
          | none =>
              have he : (transfer s fu tu amt note ts ai).1 = s := by
                simp [transfer, hf, ht]
              rw [he]; exact ⟨hbal, hrec⟩
          | some bt =>
              by_cases heq : fu = tu
              · have he : (transfer s fu tu amt note ts ai).1 = s := by
                  simp [transfer, hf, ht, heq]
                rw [he]; exact ⟨hbal, hrec⟩
              · by_cases hlt : bf < amt
                · have he : (transfer s fu tu amt note ts ai).1 = s := by
                    simp [transfer, hf, ht, heq, hlt]
                  rw [he]; exact ⟨hbal, hrec⟩
                · rw [transfer_ok_eq s fu tu amt bf bt note ts ai hf ht heq hlt]
                  have h1 : lookupAcct tu (updateAcct fu (bf - amt) s.user_accounts)
                      = some bt := by
                    rw [lookupAcct_updateAcct_ne _ heq]; exact ht
                  constructor
                  · intro u1 b1 hl1
                    dsimp at hl1 ⊢
                    by_cases hu1 : u1 = tu
                    · subst hu1
                      rw [lookupAcct_updateAcct_self h1] at hl1
                      injection hl1 with h2
                      subst h2
                      have hb := hbal u1 bt ht
                      rw [signedSum_append, signedSum_pair]
                      simp [heq, hb]
                    · by_cases hu2 : u1 = fu
                      · subst hu2
                        rw [lookupAcct_updateAcct_ne _ (Ne.symm hu1)] at hl1
                        rw [lookupAcct_updateAcct_self hf] at hl1
                        injection hl1 with h2
                        subst h2
                        have hb := hbal u1 bf hf
                        rw [signedSum_append, signedSum_pair]
                        simp [Ne.symm hu1, hb, sub_eq_add_neg]
                      · rw [lookupAcct_updateAcct_ne _ (Ne.symm hu1),
                            lookupAcct_updateAcct_ne _ (Ne.symm hu2)] at hl1
                        have hb := hbal u1 b1 hl1
                        rw [signedSum_append, signedSum_pair]
                        simp [Ne.symm hu1, Ne.symm hu2, hb]
                  · intro r hr
                    dsimp at hr ⊢
                    rw [containsAcct_updateAcct, containsAcct_updateAcct]
                    rcases List.mem_append.mp hr with hmem | hmem
                    · exact hrec r hmem
                    · rcases List.mem_cons.mp hmem with hm1 | hm2
                      · subst hm1
                        unfold containsAcct
                        rw [hf]
                        rfl
                      · rw [List.mem_singleton] at hm2
                        subst hm2
                        unfold containsAcct
                        rw [ht]
                        rfl

theorem ledgerInv_applyOps (ops : List Op) : ledgerInv (applyOps initState ops) := by
  suffices h : ∀ s, ledgerInv s → ledgerInv (applyOps s ops) from h initState ledgerInv_init
  induction ops with
  | nil => intro s hs; exact hs
  | cons op rest ih =>
      intro s hs
      exact ih (applyOp s op) (ledgerInv_applyOp s op hs)

/-- C1: after any sequence of API requests starting from the empty
store, every existing account's balance equals the sum of the signed
amounts of the transaction records whose username field names that
account (deposits and incoming transfers positive, withdrawals and
outgoing transfers negative). -/
theorem balance_eq_signedSum (ops : List Op) (u : String) (b : Rat)
    (h : lookupAcct u (applyOps initState ops).user_accounts = some b) :
    b = signedSum u (applyOps initState ops).transaction_history :=
  (ledgerInv_applyOps ops).1 u b h

/-- Concrete request sequence: create alice and bob, deposit 100 to
alice, deposit 50 to bob. -/
def demoOps : List Op :=
  [ .createUser "alice" "Alice" "Smith" "alice@example.com" "0300" "1234",
    .createUser "bob" "Bob" "Jones" "bob@example.com" "0301" "4321",
    .deposit "alice" 100 (some "salary") 1 (.ok "Others"),
    .deposit "bob" 50 none 2 .fail ]

theorem balance_eq_signedSum_witness :
    lookupAcct "alice" (applyOps initState demoOps).user_accounts = some (0 + 100) ∧
    (0 : Rat) + 100 = signedSum "alice" (applyOps initState demoOps).transaction_history :=
  ⟨by rfl, balance_eq_signedSum demoOps "alice" (0 + 100) (by rfl)⟩

/-! ### C7: the total of all balances moves by the appended amounts -/

theorem sumValues_append (l1 l2 : List (String × Rat)) :
    sumValues (l1 ++ l2) = sumValues l1 + sumValues l2 := by
  simp [sumValues]

/-- C7: every request changes the sum of all stored balances by exactly
the sum of the signed amounts of the records it appends to the
transaction log; in particular a successful transfer leaves the total
unchanged. -/
theorem total_balance_matches_appended (s : BankState) (op : Op)
    (fu tu : String) (amt : Rat) (note : Option String) (ts : Nat) (ai : AIOutcome) :
    (sumValues (applyOp s op).user_accounts
      = sumValues s.user_accounts
        + (((applyOp s op).transaction_history.drop
              s.transaction_history.length).map TxRecord.amount).sum)
    ∧ (∀ r, (transfer s fu tu amt note ts ai).2 = .ok r →
        sumValues (transfer s fu tu amt note ts ai).1.user_accounts
          = sumValues s.user_accounts) := by
  constructor
  · cases op with
    | createUser u f l e p pin =>
        dsimp only [applyOp]
        by_cases hc : containsAcct u s.user_accounts = true
        · have he : (create_user s u f l e p pin).1 = s := by
            simp [create_user, hc]
          rw [he, List.drop_length]
          simp
        · have he : (create_user s u f l e p pin).1.user_accounts
              = s.user_accounts ++ [(u, 0)] := by
            simp [create_user, hc]
          have hh : (create_user s u f l e p pin).1.transaction_history
              = s.transaction_history := by
            simp [create_user, hc]
          rw [he, hh, List.drop_length, sumValues_append]
          simp [sumValues]
    | deposit u amt1 note1 ts1 ai1 =>
        dsimp only [applyOp]
        cases hl : lookupAcct u s.user_accounts with
        | none =>
            have he : (deposit s u amt1 note1 ts1 ai1).1 = s := by
              unfold deposit; rw [hl]
            rw [he, List.drop_length]
            simp
        | some b =>
            rw [deposit_ok_eq s u amt1 b note1 ts1 ai1 hl]
            dsimp
            rw [List.drop_left, sumValues_updateAcct hl]
            simp
            ring
    | withdraw u amt1 note1 ts1 ai1 =>
        dsimp only [applyOp]
        cases hl : lookupAcct u s.user_accounts with
        | none =>
            have he : (withdraw s u amt1 note1 ts1 ai1).1 = s := by
              unfold withdraw; rw [hl]
            rw [he, List.drop_length]
            simp
        | some b =>
            by_cases hlt : b < amt1
            · have he : (withdraw s u amt1 note1 ts1 ai1).1 = s := by
                unfold withdraw; rw [hl]; simp [hlt]
              rw [he, List.drop_length]
              simp
            · rw [withdraw_ok_eq s u amt1 b note1 ts1 ai1 hl hlt]
              dsimp
              rw [List.drop_left, sumValues_updateAcct hl]
              simp
              ring
    | transfer fu1 tu1 amt1 note1 ts1 ai1 =>
        dsimp only [applyOp]
        cases hf : lookupAcct fu1 s.user_accounts with
        | none =>
            have he : (transfer s fu1 tu1 amt1 note1 ts1 ai1).1 = s := by
              simp [transfer, hf]
            rw [he, List.drop_length]
            simp
        | some bf =>
            cases ht : lookupAcct tu1 s.user_accounts with
            | none =>
                have he : (transfer s fu1 tu1 amt1 note1 ts1 ai1).1 = s := by
                  simp [transfer, hf, ht]
                rw [he, List.drop_length]
                simp
            | some bt =>
                by_cases heq : fu1 = tu1
                · have he : (transfer s fu1 tu1 amt1 note1 ts1 ai1).1 = s := by
                    simp [transfer, hf, ht, heq]
                  rw [he, List.drop_length]
                  simp
                · by_cases hlt : bf < amt1
                  · have he : (transfer s fu1 tu1 amt1 note1 ts1 ai1).1 = s := by
                      simp [transfer, hf, ht, heq, hlt]
                    rw [he, List.drop_length]
                    simp
                  · have h1 : lookupAcct tu1 (updateAcct fu1 (bf - amt1) s.user_accounts)
                        = some bt := by
                      rw [lookupAcct_updateAcct_ne _ heq]; exact ht
                    rw [transfer_ok_eq s fu1 tu1 amt1 bf bt note1 ts1 ai1 hf ht heq hlt]
                    dsimp
                    rw [List.drop_left, sumValues_updateAcct h1, sumValues_updateAcct hf]
                    simp
                    ring
  · intro r hok
    cases hf : lookupAcct fu s.user_accounts with
    | none =>
        exfalso
        unfold transfer at hok
        rw [hf] at hok
        simp at hok
    | some bf =>
        cases ht : lookupAcct tu s.user_accounts with
        | none =>
            exfalso
            unfold transfer at hok
            rw [hf, ht] at hok
            simp at hok
        | some bt =>
            by_cases heq : fu = tu
            · exfalso
              unfold transfer at hok
              rw [hf, ht] at hok
              simp [heq] at hok
            · by_cases hlt : bf < amt
              · exfalso
                unfold transfer at hok
                rw [hf, ht] at hok
                simp [heq, hlt] at hok
              · have h1 : lookupAcct tu (updateAcct fu (bf - amt) s.user_accounts)
                    = some bt := by
                  rw [lookupAcct_updateAcct_ne _ heq]; exact ht
                rw [transfer_ok_eq s fu tu amt bf bt note ts ai hf ht heq hlt]
                dsimp
                rw [sumValues_updateAcct h1, sumValues_updateAcct hf]
                ring

theorem total_balance_matches_appended_witness :
    (sumValues (applyOp transferDemoState
        (.transfer "alice" "bob" 30 none 2 .fail)).user_accounts
      = sumValues transferDemoState.user_accounts
        + (((applyOp transferDemoState
              (.transfer "alice" "bob" 30 none 2 .fail)).transaction_history.drop
                transferDemoState.transaction_history.length).map TxRecord.amount).sum)
    ∧ sumValues (transfer transferDemoState "alice" "bob" 30 none 2 .fail).1.user_accounts
        = sumValues transferDemoState.user_accounts :=
  ⟨(total_balance_matches_appended transferDemoState
      (.transfer "alice" "bob" 30 none 2 .fail) "alice" "bob" 30 none 2 .fail).1,
   (total_balance_matches_appended transferDemoState
      (.transfer "alice" "bob" 30 none 2 .fail) "alice" "bob" 30 none 2 .fail).2
     (100 - 30, 5 + 30) (by rfl)⟩

/-! ### C10: money operations touch only the named accounts -/

/-- C10: deposit, withdraw and transfer never create or delete accounts
(the key sequence of the account store is preserved), never change the
balance of any account other than the one(s) named in the request, and
leave the stored user profiles (including pins) untouched, on success
and on failure alike. -/
theorem money_ops_frame (s : BankState) (u fu tu : String) (amt : Rat)
    (note : Option String) (ts : Nat) (ai : AIOutcome) :
    ((deposit s u amt note ts ai).1.user_details = s.user_details
      ∧ (deposit s u amt note ts ai).1.user_accounts.map Prod.fst
          = s.user_accounts.map Prod.fst
      ∧ ∀ w, w ≠ u →
          lookupAcct w (deposit s u amt note ts ai).1.user_accounts
            = lookupAcct w s.user_accounts)
    ∧ ((withdraw s u amt note ts ai).1.user_details = s.user_details
      ∧ (withdraw s u amt note ts ai).1.user_accounts.map Prod.fst
          = s.user_accounts.map Prod.fst
      ∧ ∀ w, w ≠ u →
          lookupAcct w (withdraw s u amt note ts ai).1.user_accounts
            = lookupAcct w s.user_accounts)
    ∧ ((transfer s fu tu amt note ts ai).1.user_details = s.user_details
      ∧ (transfer s fu tu amt note ts ai).1.user_accounts.map Prod.fst
          = s.user_accounts.map Prod.fst
      ∧ ∀ w, w ≠ fu → w ≠ tu →
          lookupAcct w (transfer s fu tu amt note ts ai).1.user_accounts
            = lookupAcct w s.user_accounts) := by
  refine ⟨?_, ?_, ?_⟩
  · cases hl : lookupAcct u s.user_accounts with
    | none =>
        have he : (deposit s u amt note ts ai).1 = s := by
          unfold deposit; rw [hl]
        rw [he]
        exact ⟨rfl, rfl, fun w _ => rfl⟩
    | some b =>
        rw [deposit_ok_eq s u amt b note ts ai hl]
        refine ⟨rfl, keys_updateAcct u (b + amt) s.user_accounts, ?_⟩
        intro w hw
        exact lookupAcct_updateAcct_ne _ (Ne.symm hw)
  · cases hl : lookupAcct u s.user_accounts with
    | none =>
        have he : (withdraw s u amt note ts ai).1 = s := by
          unfold withdraw; rw [hl]
        rw [he]
        exact ⟨rfl, rfl, fun w _ => rfl⟩
    | some b =>
        by_cases hlt : b < amt
        · have he : (withdraw s u amt note ts ai).1 = s := by
            unfold withdraw; rw [hl]; simp [hlt]
          rw [he]
          exact ⟨rfl, rfl, fun w _ => rfl⟩
        · rw [withdraw_ok_eq s u amt b note ts ai hl hlt]
          refine ⟨rfl, keys_updateAcct u (b - amt) s.user_accounts, ?_⟩
          intro w hw
          exact lookupAcct_updateAcct_ne _ (Ne.symm hw)
  · cases hf : lookupAcct fu s.user_accounts with
    | none =>
        have he : (transfer s fu tu amt note ts ai).1 = s := by
          simp [transfer, hf]
        rw [he]
        exact ⟨rfl, rfl, fun w _ _ => rfl⟩
    | some bf =>
        cases ht : lookupAcct tu s.user_accounts with
        | none =>
            have he : (transfer s fu tu amt note ts ai).1 = s := by
              simp [transfer, hf, ht]
            rw [he]
            exact ⟨rfl, rfl, fun w _ _ => rfl⟩
        | some bt =>
            by_cases heq : fu = tu
            · have he : (transfer s fu tu amt note ts ai).1 = s := by
                simp [transfer, hf, ht, heq]
              rw [he]
              exact ⟨rfl, rfl, fun w _ _ => rfl⟩
            · by_cases hlt : bf < amt
              · have he : (transfer s fu tu amt note ts ai).1 = s := by
                  simp [transfer, hf, ht, heq, hlt]
                rw [he]
                exact ⟨rfl, rfl, fun w _ _ => rfl⟩
              · rw [transfer_ok_eq s fu tu amt bf bt note ts ai hf ht heq hlt]
                refine ⟨rfl, ?_, ?_⟩
                · exact (keys_updateAcct tu (bt + amt) _).trans
                    (keys_updateAcct fu (bf - amt) s.user_accounts)
                · intro w hwf hwt
                  rw [lookupAcct_updateAcct_ne _ (Ne.symm hwt)]
                  exact lookupAcct_updateAcct_ne _ (Ne.symm hwf)

theorem money_ops_frame_witness :
    ("carol" : String) ≠ "alice" ∧
    lookupAcct "carol" (deposit transferDemoState "alice" 30 none 1 .fail).1.user_accounts
      = lookupAcct "carol" transferDemoState.user_accounts :=
  ⟨by decide,
   (money_ops_frame transferDemoState "alice" "alice" "bob" 30 none 1 .fail).1.2.2
     "carol" (by decide)⟩

/-! ### C6: spending summary machinery -/

/-- Records that claim C6 says the summary considers: the user's records
whose category is set and whose amount is strictly negative (stated from
the claim, to be compared with the code's filter). -/
def specOutflows (u : String) (hist : List TxRecord) : List TxRecord :=
  hist.filter (fun tx => tx.username = u ∧ tx.category.isSome ∧ tx.amount < 0)

/-- Summed absolute amount of the records carrying one category. -/
def specCategoryTotal (c : String) (txs : List TxRecord) : Rat :=
  ((txs.filter (fun tx => tx.category = some c)).map (fun tx => |tx.amount|)).sum

/-- Total the code accumulates for category `c` while scanning `txs`. -/
def qualTotal (c : String) (txs : List TxRecord) : Rat :=
  specCategoryTotal c (txs.filter codeQual)

/-- Whether some record of `txs` passes the code's filter with category `c`. -/
def anyQual (c : String) (txs : List TxRecord) : Bool :=
  txs.any (fun tx => codeQual tx && tx.category == some c)

theorem lookupAcct_eq_none_iff {β : Type} (k : String) (l : List (String × β)) :
    lookupAcct k l = none ↔ k ∉ l.map Prod.fst := by
  rw [← containsAcct_eq_keys_mem]
  cases h : lookupAcct k l <;> simp [containsAcct, h]

theorem addSpend_lookup_self (totals : List (String × Rat)) (c : String) (v : Rat) :
    lookupAcct c (addSpend totals c v) = some ((lookupAcct c totals).getD 0 + v) := by
  unfold addSpend
  cases h : lookupAcct c totals with
  | some t =>
      rw [lookupAcct_updateAcct_self h]
      simp
  | none =>
      rw [lookupAcct_append, h]
      simp [lookupAcct]

theorem addSpend_lookup_ne (totals : List (String × Rat)) {c2 c : String} (v : Rat)
    (h : c2 ≠ c) : lookupAcct c2 (addSpend totals c v) = lookupAcct c2 totals := by
  unfold addSpend
  cases hl : lookupAcct c totals with
  | some t => exact lookupAcct_updateAcct_ne _ (Ne.symm h)
  | none =>
      rw [lookupAcct_append]
      cases hl2 : lookupAcct c2 totals with
      | some t => rfl
      | none => simp [lookupAcct, Ne.symm h]

theorem addSpend_ne_nil (totals : List (String × Rat)) (c : String) (v : Rat) :
    addSpend totals c v ≠ [] := by
  unfold addSpend
  cases h : lookupAcct c totals with
  | some t =>
      cases totals with
      | nil => simp [lookupAcct] at h
      | cons p rest =>
          obtain ⟨k1, v1⟩ := p
          by_cases hk : k1 = c <;> simp [updateAcct, hk]
  | none => simp

theorem addSpend_keys_nodup {totals : List (String × Rat)} (c : String) (v : Rat)
    (h : (totals.map Prod.fst).Nodup) :
    ((addSpend totals c v).map Prod.fst).Nodup := by
  unfold addSpend
  cases hl : lookupAcct c totals with
  | some t => rw [keys_updateAcct]; exact h
  | none =>
      rw [List.map_append]
      refine List.Nodup.append h (List.nodup_singleton c) ?_
      intro a ha hb
      simp only [List.map_cons, List.map_nil, List.mem_singleton] at hb
      subst hb
      exact (lookupAcct_eq_none_iff a totals).mp hl ha

theorem lookupAcct_of_mem_nodup {β : Type} {c : String} {t : β}
    {l : List (String × β)} (hmem : (c, t) ∈ l) (hnd : (l.map Prod.fst).Nodup) :
    lookupAcct c l = some t := by
  induction l with
  | nil => simp at hmem
  | cons p rest ih =>
      obtain ⟨k1, v1⟩ := p
      rw [List.map_cons, List.nodup_cons] at hnd
      rcases List.mem_cons.mp hmem with h1 | h2
      · rw [Prod.mk.injEq] at h1
        obtain ⟨hc, ht⟩ := h1
        subst hc; subst ht
        simp [lookupAcct]
      · by_cases hk : k1 = c
        · exfalso
          subst hk
          have hm := List.mem_map_of_mem Prod.fst h2
          exact hnd.1 hm
        · simp only [lookupAcct, if_neg hk]
          exact ih h2 hnd.2

theorem codeQual_eq (tx : TxRecord) (c0 : String) (h : tx.category = some c0) :
    codeQual tx = !(c0.isEmpty || decide (0 ≤ tx.amount)) := by
  simp only [codeQual, h, Bool.not_or]
  congr 1
  rw [← decide_not]
  exact decide_eq_decide.mpr (Iff.symm not_le)

theorem qualTotal_nil (c : String) : qualTotal c [] = 0 := by
  simp [qualTotal, specCategoryTotal]

theorem qualTotal_cons_not (c : String) (tx : TxRecord) (rest : List TxRecord)
    (h : codeQual tx = false) : qualTotal c (tx :: rest) = qualTotal c rest := by
  simp [qualTotal, List.filter_cons, h]

theorem qualTotal_cons_self (c : String) (tx : TxRecord) (rest : List TxRecord)
    (h : codeQual tx = true) (hc : tx.category = some c) :
    qualTotal c (tx :: rest) = |tx.amount| + qualTotal c rest := by
  simp [qualTotal, specCategoryTotal, List.filter_cons, h, hc]

theorem qualTotal_cons_ne (c : String) (tx : TxRecord) (rest : List TxRecord)
    (h : codeQual tx = true) (hc : ¬ tx.category = some c) :
    qualTotal c (tx :: rest) = qualTotal c rest := by
  simp [qualTotal, specCategoryTotal, List.filter_cons, h, hc]

theorem anyQual_cons_not (c : String) (tx : TxRecord) (rest : List TxRecord)
    (h : codeQual tx = false) : anyQual c (tx :: rest) = anyQual c rest := by
  simp [anyQual, h]

theorem anyQual_cons_self (c : String) (tx : TxRecord) (rest : List TxRecord)
    (h : codeQual tx = true) (hc : tx.category = some c) :
    anyQual c (tx :: rest) = true := by
  simp [anyQual, h, hc]

theorem anyQual_cons_ne (c : String) (tx : TxRecord) (rest : List TxRecord)
    (hc : ¬ tx.category = some c) : anyQual c (tx :: rest) = anyQual c rest := by
  simp [anyQual, hc]

theorem categoryTotals_lookup_some (c : String) (txs : List TxRecord) :
    ∀ (acc : List (String × Rat)) (t : Rat), lookupAcct c acc = some t →
      lookupAcct c (categoryTotals acc txs) = some (t + qualTotal c txs) := by
  induction txs with
  | nil =>
      intro acc t h
      simp [categoryTotals, qualTotal_nil, h]
  | cons tx rest ih =>
      intro acc t h
      cases hcat : tx.category with
      | none =>
          have hq : codeQual tx = false := by simp [codeQual, hcat]
          have hstep : categoryTotals acc (tx :: rest) = categoryTotals acc rest := by
            simp [categoryTotals, hcat]
          rw [hstep, qualTotal_cons_not c tx rest hq]
          exact ih acc t h
      | some c0 =>
          by_cases hskip : (c0.isEmpty || decide (0 ≤ tx.amount)) = true
          · have hq : codeQual tx = false := by
              rw [codeQual_eq tx c0 hcat, hskip]; rfl
            have hstep : categoryTotals acc (tx :: rest) = categoryTotals acc rest := by
              simp [categoryTotals, hcat, hskip]
            rw [hstep, qualTotal_cons_not c tx rest hq]
            exact ih acc t h
          · have hskipf : (c0.isEmpty || decide (0 ≤ tx.amount)) = false :=
              Bool.eq_false_iff.mpr hskip
            have hq : codeQual tx = true := by
              rw [codeQual_eq tx c0 hcat, hskipf]; rfl
            have hstep : categoryTotals acc (tx :: rest)
                = categoryTotals (addSpend acc c0 |tx.amount|) rest := by
              simp [categoryTotals, hcat, hskipf]
            by_cases hc0 : c0 = c
            · subst hc0
              have h2 : lookupAcct c0 (addSpend acc c0 |tx.amount|)
                  = some (t + |tx.amount|) := by
                rw [addSpend_lookup_self, h]
                rfl
              rw [hstep, ih _ _ h2, qualTotal_cons_self c0 tx rest hq hcat]
              congr 1
              ring
            · have h2 : lookupAcct c (addSpend acc c0 |tx.amount|) = some t := by
                rw [addSpend_lookup_ne _ _ (fun hh => hc0 hh.symm)]
                exact h
              have hcne : ¬ tx.category = some c := by
                rw [hcat]
                intro hh
                exact hc0 (Option.some.inj hh)
              rw [hstep, ih _ _ h2, qualTotal_cons_ne c tx rest hq hcne]

theorem categoryTotals_lookup_none (c : String) (txs : List TxRecord) :
    ∀ acc : List (String × Rat), lookupAcct c acc = none →
      lookupAcct c (categoryTotals acc txs)
        = if anyQual c txs then some (qualTotal c txs) else none := by
  induction txs with
  | nil =>
      intro acc h
      simp [categoryTotals, anyQual, h]
  | cons tx rest ih =>
      intro acc h
      cases hcat : tx.category with
      | none =>
          have hq : codeQual tx = false := by simp [codeQual, hcat]
          have hstep : categoryTotals acc (tx :: rest) = categoryTotals acc rest := by
            simp [categoryTotals, hcat]
          rw [hstep, qualTotal_cons_not c tx rest hq, anyQual_cons_not c tx rest hq]
          exact ih acc h
      | some c0 =>
          by_cases hskip : (c0.isEmpty || decide (0 ≤ tx.amount)) = true
          · have hq : codeQual tx = false := by
              rw [codeQual_eq tx c0 hcat, hskip]; rfl
            have hstep : categoryTotals acc (tx :: rest) = categoryTotals acc rest := by
              simp [categoryTotals, hcat, hskip]
            rw [hstep, qualTotal_cons_not c tx rest hq, anyQual_cons_not c tx rest hq]
            exact ih acc h
          · have hskipf : (c0.isEmpty || decide (0 ≤ tx.amount)) = false :=
              Bool.eq_false_iff.mpr hskip
            have hq : codeQual tx = true := by
              rw [codeQual_eq tx c0 hcat, hskipf]; rfl
            have hstep : categoryTotals acc (tx :: rest)
                = categoryTotals (addSpend acc c0 |tx.amount|) rest := by
              simp [categoryTotals, hcat, hskipf]
            by_cases hc0 : c0 = c
            · subst hc0
              have h2 : lookupAcct c0 (addSpend acc c0 |tx.amount|)
                  = some (0 + |tx.amount|) := by
                rw [addSpend_lookup_self, h]
                rfl
              rw [hstep, categoryTotals_lookup_some c0 rest _ _ h2,
                  anyQual_cons_self c0 tx rest hq hcat,
                  qualTotal_cons_self c0 tx rest hq hcat]
              simp only [if_true]
              congr 1
              ring
            · have h2 : lookupAcct c (addSpend acc c0 |tx.amount|) = none := by
                rw [addSpend_lookup_ne _ _ (fun hh => hc0 hh.symm)]
                exact h
              have hcne : ¬ tx.category = some c := by
                rw [hcat]
                intro hh
                exact hc0 (Option.some.inj hh)
              rw [hstep, ih _ h2, qualTotal_cons_ne c tx rest hq hcne,
                  anyQual_cons_ne c tx rest hcne]

theorem categoryTotals_eq_nil_iff (txs : List TxRecord) :
    ∀ acc : List (String × Rat),
      (categoryTotals acc txs = [] ↔ acc = [] ∧ txs.filter codeQual = []) := by
  induction txs with
  | nil =>
      intro acc
      simp [categoryTotals]
  | cons tx rest ih =>
      intro acc
      cases hcat : tx.category with
      | none =>
          have hq : codeQual tx = false := by simp [codeQual, hcat]
          have hstep : categoryTotals acc (tx :: rest) = categoryTotals acc rest := by
            simp [categoryTotals, hcat]
          rw [hstep, ih acc]
          simp [List.filter_cons, hq]
      | some c0 =>
          by_cases hskip : (c0.isEmpty || decide (0 ≤ tx.amount)) = true
          · have hq : codeQual tx = false := by
              rw [codeQual_eq tx c0 hcat, hskip]; rfl
            have hstep : categoryTotals acc (tx :: rest) = categoryTotals acc rest := by
              simp [categoryTotals, hcat, hskip]
            rw [hstep, ih acc]
            simp [List.filter_cons, hq]
          · have hskipf : (c0.isEmpty || decide (0 ≤ tx.amount)) = false :=
              Bool.eq_false_iff.mpr hskip
            have hq : codeQual tx = true := by
              rw [codeQual_eq tx c0 hcat, hskipf]; rfl
            have hstep : categoryTotals acc (tx :: rest)
                = categoryTotals (addSpend acc c0 |tx.amount|) rest := by
              simp [categoryTotals, hcat, hskipf]
            rw [hstep, ih (addSpend acc c0 |tx.amount|)]
            simp [List.filter_cons, hq, addSpend_ne_nil]

theorem categoryTotals_keys_nodup (txs : List TxRecord) :
    ∀ acc : List (String × Rat), (acc.map Prod.fst).Nodup →
      ((categoryTotals acc txs).map Prod.fst).Nodup := by
  induction txs with
  | nil =>
      intro acc h
      simpa [categoryTotals] using h
  | cons tx rest ih =>
      intro acc h
      cases hcat : tx.category with
      | none =>
          have hstep : categoryTotals acc (tx :: rest) = categoryTotals acc rest := by
            simp [categoryTotals, hcat]
          rw [hstep]
          exact ih acc h
      | some c0 =>
          by_cases hskip : (c0.isEmpty || decide (0 ≤ tx.amount)) = true
          · have hstep : categoryTotals acc (tx :: rest) = categoryTotals acc rest := by
              simp [categoryTotals, hcat, hskip]
            rw [hstep]
            exact ih acc h
          · have hskipf : (c0.isEmpty || decide (0 ≤ tx.amount)) = false :=
              Bool.eq_false_iff.mpr hskip
            have hstep : categoryTotals acc (tx :: rest)
                = categoryTotals (addSpend acc c0 |tx.amount|) rest := by
              simp [categoryTotals, hcat, hskipf]
            rw [hstep]
            exact ih _ (addSpend_keys_nodup c0 |tx.amount| h)

theorem maxByTotal_mem (l : List (String × Rat)) :
    ∀ best : String × Rat, maxByTotal best l ∈ best :: l := by
  induction l with
  | nil =>
      intro best
      simp [maxByTotal]
  | cons p rest ih =>
      intro best
      have h := ih (if best.2 < p.2 then p else best)
      rw [show maxByTotal best (p :: rest)
          = maxByTotal (if best.2 < p.2 then p else best) rest from rfl]
      rcases List.mem_cons.mp h with h1 | h2
      · rw [h1]
        by_cases hlt : best.2 < p.2
        · simp [hlt]
        · simp [hlt]
      · exact List.mem_cons_of_mem _ (List.mem_cons_of_mem _ h2)

theorem maxByTotal_le (l : List (String × Rat)) :
    ∀ best q, q ∈ best :: l → q.2 ≤ (maxByTotal best l).2 := by
  induction l with
  | nil =>
      intro best q hq
      rw [List.mem_singleton] at hq
      subst hq
      exact le_refl _
  | cons p rest ih =>
      intro best q hq
      have hb : best.2 ≤ (if best.2 < p.2 then p else best).2 := by
        by_cases hlt : best.2 < p.2
        · simp only [if_pos hlt]
          exact le_of_lt hlt
        · simp only [if_neg hlt]
          exact le_refl _
      have hp : p.2 ≤ (if best.2 < p.2 then p else best).2 := by
        by_cases hlt : best.2 < p.2
        · simp only [if_pos hlt]
          exact le_refl _
        · simp only [if_neg hlt]
          exact le_of_not_lt hlt
      have hrec : (if best.2 < p.2 then p else best).2
          ≤ (maxByTotal (if best.2 < p.2 then p else best) rest).2 :=
        ih _ _ (List.mem_cons_self _ _)
      rw [show maxByTotal best (p :: rest)
          = maxByTotal (if best.2 < p.2 then p else best) rest from rfl]
      rcases List.mem_cons.mp hq with h1 | h2
      · subst h1
        exact le_trans hb hrec
      · rcases List.mem_cons.mp h2 with h3 | h4
        · subst h3
          exact le_trans hp hrec
        · exact ih _ _ (List.mem_cons_of_mem _ h4)

theorem filter_codeQual_eq_specOutflows (u : String) (hist : List TxRecord)
    (hcat : ∀ r ∈ hist, r.category ≠ some "") :
    (hist.filter (fun tx => tx.username = u)).filter codeQual
      = specOutflows u hist := by
  rw [List.filter_filter]
  unfold specOutflows
  apply List.filter_congr
  intro tx htx
  cases hc : tx.category with
  | none => simp [codeQual, hc]
  | some c0 =>
      have hne : ¬ c0 = "" := by
        intro hh
        subst hh
        exact hcat tx htx hc
      have hempty : c0.isEmpty = false := by
        rw [Bool.eq_false_iff]
        intro hh
        exact hne ((String.isEmpty_iff c0).mp hh)
      simp [codeQual, hc, hempty, decide_eq_true_eq, Bool.and_comm]

theorem specCategoryTotal_nonneg (c : String) (txs : List TxRecord) :
    0 ≤ specCategoryTotal c txs := by
  unfold specCategoryTotal
  apply List.sum_nonneg
  intro x hx
  rw [List.mem_map] at hx
  obtain ⟨tx, _, hxx⟩ := hx
  rw [← hxx]
  exact abs_nonneg _

theorem qualTotal_eq_zero_of_not_any (c : String) (txs : List TxRecord)
    (h : anyQual c txs = false) : qualTotal c txs = 0 := by
  unfold qualTotal specCategoryTotal
  have hnil : (txs.filter codeQual).filter (fun tx => tx.category = some c) = [] := by
    rw [List.filter_eq_nil_iff]
    intro tx htx
    rw [List.mem_filter] at htx
    have hall := List.any_eq_false.mp h tx htx.1
    simp only [Bool.and_eq_true, beq_iff_eq, not_and] at hall
    simp only [decide_eq_true_eq]
    exact hall htx.2
  rw [hnil]
  simp

/-- C6: for an existing user, the spending summary is computed from
exactly the user's records whose category is set and whose amount is
strictly negative (assuming, as the Categorizer guarantees, that no
stored category is the empty string): it returns has_data = false
precisely when no such record exists, and otherwise has_data = true with
a category whose summed absolute outflow over those records is maximal
and with total equal to that category's sum. -/
theorem spending_summary_correct (s : BankState) (u : String)
    (hu : containsAcct u s.user_accounts = true)
    (hcat : ∀ r ∈ s.transaction_history, r.category ≠ some "") :
    ∃ res, get_spending_summary s u = .ok res
    ∧ (res.has_data = false ↔ specOutflows u s.transaction_history = [])
    ∧ (res.has_data = true →
        ∃ c, res.category = some c
        ∧ (∃ tx ∈ specOutflows u s.transaction_history, tx.category = some c)
        ∧ res.total = specCategoryTotal c (specOutflows u s.transaction_history)
        ∧ ∀ c2, specCategoryTotal c2 (specOutflows u s.transaction_history)
            ≤ res.total) := by
  have hspec := filter_codeQual_eq_specOutflows u s.transaction_history hcat
  set utxs := s.transaction_history.filter (fun tx => tx.username = u) with hutxs
  have hget : get_spending_summary s u =
      match categoryTotals [] utxs with
      | [] => .ok { has_data := false, category := none, total := 0 }
      | p :: rest =>
          .ok { has_data := true, category := some (maxByTotal p rest).1,
                total := (maxByTotal p rest).2 } := by
    unfold get_spending_summary
    rw [hu]
    rfl
  cases hT : categoryTotals [] utxs with
  | nil =>
      refine ⟨{ has_data := false, category := none, total := 0 }, ?_, ?_, ?_⟩
      · rw [hget, hT]
      · constructor
        · intro _
          have h2 := (categoryTotals_eq_nil_iff utxs []).mp hT
          rw [← hspec]
          exact h2.2
        · intro _
          rfl
      · intro habs
        simp at habs
  | cons p rest =>
      refine ⟨{ has_data := true, category := some (maxByTotal p rest).1,
                total := (maxByTotal p rest).2 }, ?_, ?_, ?_⟩
      · rw [hget, hT]
      · constructor
        · intro habs
          simp at habs
        · intro hnil
          exfalso
          rw [← hspec] at hnil
          have hTnil := (categoryTotals_eq_nil_iff utxs []).mpr ⟨rfl, hnil⟩
          rw [hT] at hTnil
          exact List.cons_ne_nil p rest hTnil
      · intro _
        have hnd := categoryTotals_keys_nodup utxs [] (by simp)
        rw [hT] at hnd
        have hmem := maxByTotal_mem rest p
        have hlook : lookupAcct (maxByTotal p rest).1 (p :: rest)
            = some (maxByTotal p rest).2 := by
          apply lookupAcct_of_mem_nodup ?_ hnd
          simpa using hmem
        have hlookCT : lookupAcct (maxByTotal p rest).1 (categoryTotals [] utxs)
            = some (maxByTotal p rest).2 := by
          rw [hT]
          exact hlook
        have hct := categoryTotals_lookup_none (maxByTotal p rest).1 utxs [] rfl
        rw [hlookCT] at hct
        by_cases hany : anyQual (maxByTotal p rest).1 utxs = true
        · rw [if_pos hany] at hct
          injection hct with htot
          refine ⟨(maxByTotal p rest).1, rfl, ?_, ?_, ?_⟩
          · obtain ⟨tx, htx1, htx2⟩ := List.any_eq_true.mp hany
            simp only [Bool.and_eq_true, beq_iff_eq] at htx2
            refine ⟨tx, ?_, htx2.2⟩
            rw [← hspec, List.mem_filter]
            exact ⟨htx1, htx2.1⟩
          · show (maxByTotal p rest).2 = _
            rw [htot]
            unfold qualTotal
            rw [hspec]
          · intro c2
            show specCategoryTotal c2 _ ≤ (maxByTotal p rest).2
            rw [← hspec]
            by_cases hany2 : anyQual c2 utxs = true
            · have hct2 := categoryTotals_lookup_none c2 utxs [] rfl
              rw [if_pos hany2] at hct2
              have hmem2 : (c2, qualTotal c2 utxs) ∈ categoryTotals [] utxs :=
                lookupAcct_mem hct2
              rw [hT] at hmem2
              exact maxByTotal_le rest p (c2, qualTotal c2 utxs) hmem2
            · have hze : qualTotal c2 utxs = 0 :=
                qualTotal_eq_zero_of_not_any c2 utxs (Bool.eq_false_iff.mpr hany2)
              show qualTotal c2 utxs ≤ _
              rw [hze, htot]
              exact specCategoryTotal_nonneg _ _
        · rw [if_neg hany] at hct
          exact absurd hct (by simp)

/-- Concrete store with two categorized outflows for user dave. -/
def summaryDemoState : BankState :=
  { user_accounts := [( "dave", 100)],
    transaction_history :=
      [ { type := .withdrawal, username := "dave", amount := -30,
          counterparty := none, timestamp := 1, note := some "pizza",
          category := some "Food" },
        { type := .withdrawal, username := "dave", amount := -50,
          counterparty := none, timestamp := 2, note := some "bus",
          category := some "Transport" } ],
    user_details := [] }

theorem spending_summary_correct_witness :
    containsAcct "dave" summaryDemoState.user_accounts = true ∧
    (∀ r ∈ summaryDemoState.transaction_history, r.category ≠ some "") ∧
    (∃ res, get_spending_summary summaryDemoState "dave" = .ok res
      ∧ (res.has_data = false ↔ specOutflows "dave" summaryDemoState.transaction_history = [])
      ∧ (res.has_data = true →
          ∃ c, res.category = some c
          ∧ (∃ tx ∈ specOutflows "dave" summaryDemoState.transaction_history,
              tx.category = some c)
          ∧ res.total = specCategoryTotal c
              (specOutflows "dave" summaryDemoState.transaction_history)
          ∧ ∀ c2, specCategoryTotal c2
              (specOutflows "dave" summaryDemoState.transaction_history)
              ≤ res.total)) :=
  ⟨by decide, by decide,
   spending_summary_correct summaryDemoState "dave" (by decide) (by decide)⟩
